import Mathlib

/-!
Verification of the FacePlay trigger core (`src/main.py`): the wink and
smile debouncers, the cooldown-gated trigger dispatcher, the playback
state machine around the external audio process, and the per-frame main
loop that samples the sustained-smile state.

Modelling conventions: wall-clock timestamps are rationals, the
filesystem and the spawn/install outcomes are boolean oracles, and the
external audio process handle is a natural number.  Fallible or
possibly non-terminating operations return `Option`.
-/

/-! ## Wink debouncer (`FacePlayTrigger.detect_wink`) -/

/-- Mutable state read and written by `detect_wink`; `__init__` sets
`last_eye_count = 2` and `wink_frames = 0`. -/
structure WinkState where
  last_eye_count : Nat
  wink_frames : Nat
deriving DecidableEq

/-- Initial wink-detector state from `FacePlayTrigger.__init__`. -/
def initWink : WinkState := ⟨2, 0⟩

/-- One frame of `FacePlayTrigger.detect_wink`: takes the current eye
count (`len(eyes)`), returns the updated state and whether a completed
wink was reported. -/
def detect_wink (s : WinkState) (eyes : Nat) : WinkState × Bool :=
  if s.last_eye_count = 2 ∧ eyes = 1 then
    ({ last_eye_count := eyes, wink_frames := s.wink_frames + 1 }, false)
  else if s.last_eye_count = 1 ∧ eyes = 2 ∧ 0 < s.wink_frames then
    if 1 ≤ s.wink_frames ∧ s.wink_frames ≤ 8 then
      ({ last_eye_count := eyes, wink_frames := 0 }, true)
    else
      ({ last_eye_count := eyes, wink_frames := 0 }, false)
  else if eyes = 2 then
    ({ last_eye_count := eyes, wink_frames := 0 }, false)
  else
    ({ last_eye_count := eyes, wink_frames := s.wink_frames }, false)

/-- Feed a whole eye-count sequence to `detect_wink`, collecting the
per-frame emitted events. -/
def runWink (s : WinkState) : List Nat → List Bool
  | [] => []
  | e :: es =>
    let r := detect_wink s e
    r.2 :: runWink r.1 es

/-- Spec-side pattern: position `i` starts a contiguous `2,(1){k},2`
subsequence of `xs`. -/
def winkPatternAt (xs : List Nat) (i k : Nat) : Bool :=
  (xs.get? i == some 2) &&
    ((List.range k).all fun j => xs.get? (i + 1 + j) == some 1) &&
    (xs.get? (i + 1 + k) == some 2)

/-- Spec-side predicate: `xs` contains a contiguous `2,(1){k},2`
subsequence with `1 ≤ k ≤ 8`. -/
def hasWinkPattern (xs : List Nat) : Bool :=
  (List.range xs.length).any fun i =>
    (List.range 8).any fun k0 => winkPatternAt xs i (k0 + 1)

/-! ## Smile onset debouncer (`FacePlayTrigger.detect_smile`) -/

/-- One frame of `FacePlayTrigger.detect_smile`, abstracting the Haar
cascade call to its boolean outcome (`len(smiles) > 0`).  The counter
`smile_frames` starts at 0 in `__init__`. -/
def detect_smile (smile_frames : Nat) (present : Bool) : Nat × Bool :=
  if present then (smile_frames + 1, smile_frames + 1 == 3)
  else (0, false)

/-- Feed a whole smile-boolean sequence to `detect_smile`, collecting
the per-frame emitted events. -/
def runSmile (c : Nat) : List Bool → List Bool
  | [] => []
  | b :: bs =>
    let r := detect_smile c b
    r.2 :: runSmile r.1 bs

/-- Length of the longest prefix of `true` frames. -/
def leadingTrueRun : List Bool → Nat
  | [] => 0
  | true :: bs => leadingTrueRun bs + 1
  | false :: _ => 0

/-- Length of the run of consecutive `true` frames ending at the end of
the list. -/
def trailingTrueRun (bs : List Bool) : Nat := leadingTrueRun bs.reverse

theorem leadingTrueRun_append_false (xs ys : List Bool) :
    leadingTrueRun (xs ++ false :: ys) = leadingTrueRun xs := by
  induction xs with
  | nil => rfl
  | cons b bs ih => cases b <;> simp [leadingTrueRun, ih]

theorem trailingTrueRun_append_right (xs ys : List Bool) :
    trailingTrueRun (xs ++ false :: ys) = trailingTrueRun ys := by
  simp [trailingTrueRun, List.reverse_append, leadingTrueRun_append_false]

theorem trailingTrueRun_concat_true (xs : List Bool) :
    trailingTrueRun (xs ++ [true]) = trailingTrueRun xs + 1 := by
  simp [trailingTrueRun, List.reverse_append, leadingTrueRun]

theorem trailingTrueRun_concat_false (xs : List Bool) :
    trailingTrueRun (xs ++ [false]) = 0 := by
  simp [trailingTrueRun, List.reverse_append, leadingTrueRun]

theorem trailingTrueRun_replicate (c : Nat) :
    trailingTrueRun (List.replicate c true) = c := by
  induction c with
  | zero => rfl
  | succ n ih =>
    rw [List.replicate_succ']
    rw [trailingTrueRun_concat_true, ih]

theorem detect_smile_true (c : Nat) : detect_smile c true = (c + 1, c + 1 == 3) := rfl

theorem detect_smile_false (c : Nat) : detect_smile c false = (0, false) := rfl

theorem runSmile_cons (c : Nat) (b : Bool) (bs : List Bool) :
    runSmile c (b :: bs) = (detect_smile c b).2 :: runSmile (detect_smile c b).1 bs := rfl

theorem replicate_concat_true (c : Nat) (X : List Bool) :
    List.replicate c true ++ true :: X = List.replicate (c + 1) true ++ X := by
  rw [List.replicate_succ', List.append_assoc]
  rfl

/-- Characterization of `runSmile` generalized over the initial counter:
the counter behaves exactly like `c` phantom leading `true` frames. -/
theorem runSmile_get?_eq (bs : List Bool) : ∀ (c i : Nat),
    (runSmile c bs).get? i = some true ↔
      (i < bs.length ∧
        trailingTrueRun (List.replicate c true ++ bs.take (i + 1)) = 3) := by
  induction bs with
  | nil =>
    intro c i
    simp [runSmile]
  | cons b rest ih =>
    intro c i
    rw [runSmile_cons]
    cases i with
    | zero =>
      rw [List.get?_cons_zero, List.take_succ_cons, List.take_zero]
      cases b with
      | true =>
        rw [detect_smile_true, replicate_concat_true, List.append_nil,
          trailingTrueRun_replicate]
        constructor
        · intro h
          refine ⟨Nat.succ_pos _, ?_⟩
          have h2 : (c + 1 == 3) = true := Option.some.inj h
          exact beq_iff_eq.mp h2
        · rintro ⟨-, h⟩
          show some (c + 1 == 3) = some true
          rw [show (c + 1 == 3) = true from beq_iff_eq.mpr h]
      | false =>
        rw [detect_smile_false,
          show List.replicate c true ++ [false] =
            List.replicate c true ++ false :: ([] : List Bool) from rfl,
          trailingTrueRun_append_right]
        simp [trailingTrueRun, leadingTrueRun]
    | succ i' =>
      rw [List.get?_cons_succ, List.take_succ_cons]
      cases b with
      | true =>
        rw [detect_smile_true]
        rw [ih (c + 1) i', replicate_concat_true]
        simp [Nat.succ_lt_succ_iff]
      | false =>
        rw [detect_smile_false]
        rw [ih 0 i', trailingTrueRun_append_right]
        simp [Nat.succ_lt_succ_iff]

/-- C1: the wink detector does NOT implement the claimed `2,(1){k},2`
window with `1 ≤ k ≤ 8`.  On the eye-count sequence `2,(1){9},2` — which
contains no `2,(1){k},2` pattern for any `k ≤ 8` — the code still emits
`WinkCompleted`, because `wink_frames` is only incremented on the `2 → 1`
transition frame and therefore never exceeds 1, making the `≤ 8` guard
ineffective. -/
theorem wink_k9_still_fires :
    (runWink initWink [2, 1, 1, 1, 1, 1, 1, 1, 1, 1, 2]).any id = true ∧
      hasWinkPattern [2, 1, 1, 1, 1, 1, 1, 1, 1, 1, 2] = false := by
  decide

/-- C2: `SmileOnset` is emitted at frame `i` iff the run of consecutive
`true` frames ending at `i` has length exactly 3: once per maximal run of
length ≥ 3, precisely when the run first reaches 3, and not again until a
`false` frame resets the run. -/
theorem smile_onset_characterization (bs : List Bool) (i : Nat) :
    (runSmile 0 bs).get? i = some true ↔
      (i < bs.length ∧ trailingTrueRun (bs.take (i + 1)) = 3) := by
  have h := runSmile_get?_eq bs 0 i
  simpa using h

/-! ## Trigger dispatcher (`FacePlayTrigger.trigger_action`) -/

/-- The closed set of expression identifiers keyed in
`last_trigger_time` (`__init__`). -/
inductive Expression
  | eyebrow_raise
  | wink
  | smile
deriving DecidableEq

/-- Kind of configured action (`"play_youtube"` / `"play_local"`). -/
inductive ActionKind
  | play_youtube
  | play_local
deriving DecidableEq

/-- Per-expression action configuration entry. -/
structure ActionCfg where
  action : ActionKind
  media_path : String
deriving DecidableEq

/-- The built-in default configuration from
`FacePlayTrigger.load_config`. -/
def default_config : Expression → Option ActionCfg
  | .eyebrow_raise => some ⟨.play_youtube, "https://www.youtube.com/watch?v=VlZdCpPXLns"⟩
  | .wink => some ⟨.play_local, "default_music.mp3"⟩
  | .smile => some ⟨.play_youtube, "https://www.youtube.com/watch?v=DDQCO3Vykts"⟩

/-- `self.trigger_cooldown = 3.0` seconds. -/
def trigger_cooldown : ℚ := 3

/-- Initial `last_trigger_time` table: every expression maps to 0. -/
def initTriggerTable : Expression → ℚ := fun _ => 0

/-- `FacePlayTrigger.trigger_action`: given the cooldown table, an
expression and the current time, returns the updated table and whether
an action thread was started.  Suppression (inside the cooldown window)
returns before any state change; otherwise the table is updated and the
action is dispatched iff the expression has a configuration entry. -/
def trigger_action (config : Expression → Option ActionCfg)
    (table : Expression → ℚ) (e : Expression) (now : ℚ) :
    (Expression → ℚ) × Bool :=
  if now - table e < trigger_cooldown then (table, false)
  else
    let table' : Expression → ℚ := fun x => if x = e then now else table x
    match config e with
    | none => (table', false)
    | some _ => (table', true)

theorem trigger_action_suppressed {config : Expression → Option ActionCfg}
    {table : Expression → ℚ} {e : Expression} {now : ℚ}
    (h : now - table e < trigger_cooldown) :
    trigger_action config table e now = (table, false) := by
  unfold trigger_action
  rw [if_pos h]

theorem trigger_action_pass_some {config : Expression → Option ActionCfg}
    {table : Expression → ℚ} {e : Expression} {now : ℚ} {cfg : ActionCfg}
    (h : ¬ now - table e < trigger_cooldown) (hc : config e = some cfg) :
    trigger_action config table e now =
      (fun x => if x = e then now else table x, true) := by
  unfold trigger_action
  rw [if_neg h, hc]

theorem trigger_action_fired_config {config : Expression → Option ActionCfg}
    {table : Expression → ℚ} {e : Expression} {now : ℚ}
    (h : (trigger_action config table e now).2 = true) :
    (∃ cfg, config e = some cfg) ∧
      (trigger_action config table e now).1 e = now := by
  by_cases hlt : now - table e < trigger_cooldown
  · rw [trigger_action_suppressed hlt] at h
    exact absurd h (by simp)
  · cases hc : config e with
    | none =>
      have : trigger_action config table e now =
          (fun x => if x = e then now else table x, false) := by
        unfold trigger_action
        rw [if_neg hlt, hc]
      rw [this] at h
      exact absurd h (by simp)
    | some cfg =>
      rw [trigger_action_pass_some hlt hc]
      exact ⟨⟨cfg, rfl⟩, by simp⟩

/-- C3: if a dispatch for `e` at time `t` fired, then a second dispatch
at `t + Δ` (`Δ > 0`) is suppressed — table untouched, no action started —
iff `Δ < trigger_cooldown`, and fires — action started, table entry for
`e` moved to `t + Δ` — iff `trigger_cooldown ≤ Δ`. -/
theorem cooldown_window_dichotomy (config : Expression → Option ActionCfg)
    (table : Expression → ℚ) (e : Expression) (t Δ : ℚ)
    (hΔ : 0 < Δ)
    (hfired : (trigger_action config table e t).2 = true) :
    (trigger_action config (trigger_action config table e t).1 e (t + Δ) =
        ((trigger_action config table e t).1, false) ↔ Δ < trigger_cooldown) ∧
    ((trigger_action config (trigger_action config table e t).1 e (t + Δ)).2 = true ∧
        (trigger_action config (trigger_action config table e t).1 e (t + Δ)).1 e = t + Δ ↔
      trigger_cooldown ≤ Δ) := by
  obtain ⟨⟨cfg, hc⟩, hT1⟩ := trigger_action_fired_config hfired
  have hsub : t + Δ - (trigger_action config table e t).1 e = Δ := by
    rw [hT1]
    exact add_sub_cancel_left t Δ
  constructor
  · constructor
    · intro hsupp
      by_contra hge
      have hge' : ¬ t + Δ - (trigger_action config table e t).1 e < trigger_cooldown := by
        rw [hsub]
        exact hge
      have h2 := trigger_action_pass_some hge' hc
      have h3 := hsupp.symm.trans h2
      exact absurd (congrArg Prod.snd h3) (by simp)
    · intro hlt
      exact trigger_action_suppressed (by rw [hsub]; exact hlt)
  · constructor
    · rintro ⟨hfire2, -⟩
      by_contra hlt
      have h2 : trigger_action config (trigger_action config table e t).1 e (t + Δ) =
          ((trigger_action config table e t).1, false) := trigger_action_suppressed
        (show t + Δ - (trigger_action config table e t).1 e < trigger_cooldown by
          rw [hsub]; exact lt_of_not_le hlt)
      rw [h2] at hfire2
      exact absurd hfire2 (by simp)
    · intro hge
      have hge' : ¬ t + Δ - (trigger_action config table e t).1 e < trigger_cooldown := by
        rw [hsub]
        exact not_lt_of_le hge
      have h2 := trigger_action_pass_some hge' hc
      rw [h2]
      exact ⟨rfl, by simp⟩

/-- Witness for C3 at the default configuration: a wink dispatch at
`t = 5` fires from the initial table, and a second dispatch at `t = 6`
(`Δ = 1 < 3`) is suppressed. -/
theorem cooldown_window_dichotomy_witness :
    trigger_action default_config
        (trigger_action default_config initTriggerTable .wink 5).1 .wink (5 + 1) =
      ((trigger_action default_config initTriggerTable .wink 5).1, false) :=
  (cooldown_window_dichotomy default_config initTriggerTable .wink 5 1
    (by norm_num)
    (by rw [trigger_action_pass_some
          (show ¬ (5 : ℚ) - initTriggerTable .wink < trigger_cooldown by
            norm_num [initTriggerTable, trigger_cooldown]) rfl])).1.mpr
    (by norm_num [trigger_cooldown])

/-! ## Playback controller (`load_music` / `play_music` / `pause_music` /
`stop_music`) -/

/-- Playback-related fields of `FacePlayTrigger`: the loaded media path
(`music_file`), the owned audio process handle (`audio_process`,
modelled by a natural number identity) and the pause flag
(`is_paused`). -/
structure MusicState where
  music_file : Option String
  audio_process : Option Nat
  is_paused : Bool
deriving DecidableEq

/-- Initial playback state from `__init__`: no media, no process, not
paused. -/
def initMusic : MusicState := ⟨none, none, false⟩

/-- Observable side effects of the playback operations. -/
inductive AudioEvent
  | spawnTried (k : Nat)
  | spawned (k : Nat)
  | installTried (k : Nat)
  | installGaveUp
  | sigcont (h : Nat)
  | sigstop (h : Nat)
  | terminated (h : Nat)
deriving DecidableEq

/-- `FacePlayTrigger.load_music`: records the path iff it exists on the
(oracle) filesystem; returns the Python function's boolean result. -/
def load_music (exists_fs : String → Bool) (file_path : String)
    (s : MusicState) : MusicState × Bool :=
  if exists_fs file_path then ({ s with music_file := some file_path }, true)
  else (s, false)

/-- `FacePlayTrigger.play_music`.  `spawnOk k` tells whether the `k`-th
`subprocess.Popen` succeeds (`false` = `FileNotFoundError`, the missing
`mpg123` binary); `installOk k` whether the `k`-th
`sudo apt install` run succeeds (`false` = `CalledProcessError`).  The
`except FileNotFoundError` branch installs and, on install success,
recurses (`self.play_music()`); `fuel` bounds that recursion and `none`
models non-termination. -/
def play_music (spawnOk installOk : Nat → Bool) :
    Nat → Nat → MusicState → Option (MusicState × List AudioEvent)
  | 0, _, _ => none
  | fuel + 1, k, s =>
    match s.music_file with
    | none => some (s, [])
    | some _ =>
      match s.audio_process with
      | none =>
        if spawnOk k then
          some ({ s with audio_process := some k, is_paused := false },
            [.spawnTried k, .spawned k])
        else if installOk k then
          match play_music spawnOk installOk fuel (k + 1) s with
          | none => none
          | some (s', tr) => some (s', .spawnTried k :: .installTried k :: tr)
        else
          some (s, [.spawnTried k, .installTried k, .installGaveUp])
      | some h =>
        if s.is_paused then
          some ({ s with is_paused := false }, [.sigcont h])
        else
          some (s, [])

/-- `FacePlayTrigger.pause_music`: only acts when a process is owned and
not already paused (`SIGSTOP`). -/
def pause_music (s : MusicState) : MusicState × List AudioEvent :=
  match s.audio_process with
  | some h =>
    if s.is_paused then (s, [])
    else ({ s with is_paused := true }, [.sigstop h])
  | none => (s, [])

/-- `FacePlayTrigger.stop_music`: terminates and releases the process if
one is owned. -/
def stop_music (s : MusicState) : MusicState × List AudioEvent :=
  match s.audio_process with
  | some h => ({ s with audio_process := none, is_paused := false }, [.terminated h])
  | none => (s, [])

/-- Number of `spawnTried` events in a trace. -/
def countSpawnTried (tr : List AudioEvent) : Nat :=
  tr.countP fun e => match e with | .spawnTried _ => true | _ => false

/-- Number of `installTried` events in a trace. -/
def countInstallTried (tr : List AudioEvent) : Nat :=
  tr.countP fun e => match e with | .installTried _ => true | _ => false

/-- Number of `spawned` events in a trace. -/
def countSpawned (tr : List AudioEvent) : Nat :=
  tr.countP fun e => match e with | .spawned _ => true | _ => false

theorem play_music_zero (so io : Nat → Bool) (k : Nat) (s : MusicState) :
    play_music so io 0 k s = none := rfl

theorem play_music_nofile (so io : Nat → Bool) (fuel k : Nat)
    (ap : Option Nat) (ip : Bool) :
    play_music so io (fuel + 1) k ⟨none, ap, ip⟩ = some (⟨none, ap, ip⟩, []) := rfl

theorem play_music_resume (so io : Nat → Bool) (fuel k : Nat) (m : String) (h : Nat) :
    play_music so io (fuel + 1) k ⟨some m, some h, true⟩ =
      some (⟨some m, some h, false⟩, [.sigcont h]) := rfl

theorem play_music_already_playing (so io : Nat → Bool) (fuel k : Nat)
    (m : String) (h : Nat) :
    play_music so io (fuel + 1) k ⟨some m, some h, false⟩ =
      some (⟨some m, some h, false⟩, []) := rfl

theorem play_music_spawn (so io : Nat → Bool) (fuel k : Nat) (m : String) (ip : Bool)
    (hso : so k = true) :
    play_music so io (fuel + 1) k ⟨some m, none, ip⟩ =
      some (⟨some m, some k, false⟩, [.spawnTried k, .spawned k]) := by
  simp [play_music, hso]

theorem play_music_recover (so io : Nat → Bool) (fuel k : Nat) (m : String) (ip : Bool)
    (hso : so k = false) (hio : io k = true) :
    play_music so io (fuel + 1) k ⟨some m, none, ip⟩ =
      match play_music so io fuel (k + 1) ⟨some m, none, ip⟩ with
      | none => none
      | some (s', tr) => some (s', .spawnTried k :: .installTried k :: tr) := by
  simp [play_music, hso, hio]

theorem play_music_giveup (so io : Nat → Bool) (fuel k : Nat) (m : String) (ip : Bool)
    (hso : so k = false) (hio : io k = false) :
    play_music so io (fuel + 1) k ⟨some m, none, ip⟩ =
      some (⟨some m, none, ip⟩,
        [.spawnTried k, .installTried k, .installGaveUp]) := by
  simp [play_music, hso, hio]

/-- `play_music` never changes the loaded media path. -/
theorem play_music_music_file (so io : Nat → Bool) :
    ∀ (fuel k : Nat) (s s' : MusicState) (tr : List AudioEvent),
      play_music so io fuel k s = some (s', tr) → s'.music_file = s.music_file := by
  intro fuel
  induction fuel with
  | zero =>
    intro k s s' tr h
    rw [play_music_zero] at h
    exact absurd h (by simp)
  | succ fuel ih =>
    intro k s s' tr h
    obtain ⟨mf, ap, ip⟩ := s
    cases mf with
    | none =>
      rw [play_music_nofile] at h
      simp only [Option.some.injEq, Prod.mk.injEq] at h
      obtain ⟨rfl, rfl⟩ := h
      rfl
    | some m =>
      cases ap with
      | none =>
        by_cases hso : so k
        · rw [play_music_spawn so io fuel k m ip hso] at h
          simp only [Option.some.injEq, Prod.mk.injEq] at h
          obtain ⟨rfl, rfl⟩ := h
          rfl
        · by_cases hio : io k
          · rw [play_music_recover so io fuel k m ip (Bool.not_eq_true _ ▸ hso) hio] at h
            cases hrec : play_music so io fuel (k + 1) ⟨some m, none, ip⟩ with
            | none => rw [hrec] at h; exact absurd h (by simp)
            | some r =>
              rw [hrec] at h
              simp only [Option.some.injEq, Prod.mk.injEq] at h
              obtain ⟨rfl, rfl⟩ := h
              exact ih (k + 1) ⟨some m, none, ip⟩ r.1 r.2 (by rw [hrec])
          · rw [play_music_giveup so io fuel k m ip (Bool.not_eq_true _ ▸ hso)
              (Bool.not_eq_true _ ▸ hio)] at h
            simp only [Option.some.injEq, Prod.mk.injEq] at h
            obtain ⟨rfl, rfl⟩ := h
            rfl
      | some hp =>
        cases ip with
        | true =>
          rw [play_music_resume] at h
          simp only [Option.some.injEq, Prod.mk.injEq] at h
          obtain ⟨rfl, rfl⟩ := h
          rfl
        | false =>
          rw [play_music_already_playing] at h
          simp only [Option.some.injEq, Prod.mk.injEq] at h
          obtain ⟨rfl, rfl⟩ := h
          rfl

/-- The states the playback controller can actually be in: closure of
the initial state under the four public operations. -/
inductive Reachable : MusicState → Prop
  | init : Reachable initMusic
  | load {s : MusicState} (exists_fs : String → Bool) (p : String) :
      Reachable s → Reachable (load_music exists_fs p s).1
  | play {s s' : MusicState} {tr : List AudioEvent} (so io : Nat → Bool)
      (fuel k : Nat) :
      Reachable s → play_music so io fuel k s = some (s', tr) → Reachable s'
  | pause {s : MusicState} : Reachable s → Reachable (pause_music s).1
  | stop {s : MusicState} : Reachable s → Reachable (stop_music s).1

/-- In every reachable state, an owned process implies loaded media
(`play_music` only ever spawns after the media check passed). -/
theorem reachable_music_loaded :
    ∀ {s : MusicState}, Reachable s →
      s.audio_process.isSome = true → s.music_file.isSome = true := by
  intro s hreach
  induction hreach with
  | init =>
    intro h
    exact absurd h (by simp [initMusic])
  | load exists_fs p hr ih =>
    rename_i s₀
    intro h
    by_cases hex : exists_fs p
    · simp [load_music, hex]
    · simp only [load_music, if_neg hex] at h ⊢
      exact ih h
  | play so io fuel k hr hplay ih =>
    rename_i s₀ s' tr
    intro h
    have hmf := play_music_music_file so io fuel k s₀ s' tr hplay
    cases hmf0 : s₀.music_file with
    | none =>
      cases fuel with
      | zero =>
        rw [play_music_zero] at hplay
        exact absurd hplay (by simp)
      | succ fuel =>
        obtain ⟨mf, ap, ip⟩ := s₀
        cases mf with
        | none =>
          rw [play_music_nofile] at hplay
          simp only [Option.some.injEq, Prod.mk.injEq] at hplay
          obtain ⟨rfl, -⟩ := hplay
          exact ih h
        | some m => exact absurd hmf0 (by simp)
    | some m =>
      rw [hmf, hmf0]
      rfl
  | pause hr ih =>
    rename_i s₀
    intro h
    cases hap : s₀.audio_process with
    | none =>
      simp only [pause_music, hap] at h ⊢
      exact absurd h (by simp)
    | some hp =>
      by_cases hpp : s₀.is_paused
      · simp only [pause_music, hap, if_pos hpp] at h ⊢
        exact ih (by rw [hap]; rfl)
      · simp only [pause_music, hap, if_neg hpp] at h ⊢
        exact ih (by rw [hap]; rfl)
  | stop hr ih =>
    rename_i s₀
    intro h
    cases hap : s₀.audio_process with
    | none =>
      simp only [stop_music, hap] at h ⊢
      exact absurd h (by simp)
    | some hp =>
      simp only [stop_music, hap] at h
      exact absurd h (by simp)

/-- C4: calling `play_music` in a reachable Paused state (process owned,
`is_paused` set) sends `SIGCONT` to the existing process and clears the
pause flag: the handle field is bitwise untouched, nothing is spawned,
and the whole effect trace is the single continue signal. -/
theorem play_after_pause_resumes (s : MusicState) (h : Nat)
    (so io : Nat → Bool) (fuel k : Nat)
    (hreach : Reachable s)
    (hproc : s.audio_process = some h)
    (hpaused : s.is_paused = true) :
    play_music so io (fuel + 1) k s =
      some ({ s with is_paused := false }, [.sigcont h]) := by
  have hmfs : s.music_file.isSome = true :=
    reachable_music_loaded hreach (by rw [hproc]; rfl)
  obtain ⟨mf, ap, ip⟩ := s
  obtain ⟨m, hm⟩ := Option.isSome_iff_exists.mp hmfs
  cases hm
  cases hproc
  cases hpaused
  exact play_music_resume so io fuel k m h

/-- Witness for C4: the paused state reached by load, play, pause from
the initial state; `play_music` there emits exactly one `SIGCONT` for
the existing handle `0` and keeps the handle. -/
theorem play_after_pause_resumes_witness :
    play_music (fun _ => true) (fun _ => true) 1 0
        (⟨some "m.mp3", some 0, true⟩ : MusicState) =
      some ((⟨some "m.mp3", some 0, false⟩ : MusicState),
        [AudioEvent.sigcont 0]) := by
  have r1 : Reachable (⟨some "m.mp3", none, false⟩ : MusicState) :=
    Reachable.load (fun _ => true) "m.mp3" Reachable.init
  have r2 : Reachable (⟨some "m.mp3", some 0, false⟩ : MusicState) :=
    Reachable.play (fun _ => true) (fun _ => true) 1 0 r1 rfl
  have r3 : Reachable (⟨some "m.mp3", some 0, true⟩ : MusicState) :=
    Reachable.pause r2
  exact play_after_pause_resumes ⟨some "m.mp3", some 0, true⟩ 0
    (fun _ => true) (fun _ => true) 0 0 r3 rfl rfl

/-- The handle/state coherence predicate of the playback controller:
with the logical state derived as Stopped = no handle, Playing = handle
and not paused, Paused = handle and paused, its content is that the
pause flag never holds without an owned process. -/
def MusicInv (s : MusicState) : Prop :=
  s.is_paused = true → s.audio_process.isSome = true

theorem play_music_inv (so io : Nat → Bool) :
    ∀ (fuel k : Nat) (s s' : MusicState) (tr : List AudioEvent),
      MusicInv s → play_music so io fuel k s = some (s', tr) → MusicInv s' := by
  intro fuel
  induction fuel with
  | zero =>
    intro k s s' tr _ h
    rw [play_music_zero] at h
    exact absurd h (by simp)
  | succ fuel ih =>
    intro k s s' tr hinv h
    obtain ⟨mf, ap, ip⟩ := s
    cases mf with
    | none =>
      rw [play_music_nofile] at h
      simp only [Option.some.injEq, Prod.mk.injEq] at h
      obtain ⟨rfl, rfl⟩ := h
      exact hinv
    | some m =>
      cases ap with
      | none =>
        by_cases hso : so k
        · rw [play_music_spawn so io fuel k m ip hso] at h
          simp only [Option.some.injEq, Prod.mk.injEq] at h
          obtain ⟨rfl, rfl⟩ := h
          intro _
          rfl
        · by_cases hio : io k
          · rw [play_music_recover so io fuel k m ip (Bool.not_eq_true _ ▸ hso) hio] at h
            cases hrec : play_music so io fuel (k + 1) ⟨some m, none, ip⟩ with
            | none => rw [hrec] at h; exact absurd h (by simp)
            | some r =>
              rw [hrec] at h
              simp only [Option.some.injEq, Prod.mk.injEq] at h
              obtain ⟨rfl, rfl⟩ := h
              exact ih (k + 1) ⟨some m, none, ip⟩ r.1 r.2 hinv (by rw [hrec])
          · rw [play_music_giveup so io fuel k m ip (Bool.not_eq_true _ ▸ hso)
              (Bool.not_eq_true _ ▸ hio)] at h
            simp only [Option.some.injEq, Prod.mk.injEq] at h
            obtain ⟨rfl, rfl⟩ := h
            exact hinv
      | some hp =>
        cases ip with
        | true =>
          rw [play_music_resume] at h
          simp only [Option.some.injEq, Prod.mk.injEq] at h
          obtain ⟨rfl, rfl⟩ := h
          intro habs
          exact absurd habs (by simp)
        | false =>
          rw [play_music_already_playing] at h
          simp only [Option.some.injEq, Prod.mk.injEq] at h
          obtain ⟨rfl, rfl⟩ := h
          intro _
          rfl

/-- `play_music` spawns at most one process per call, and never spawns
when a process is already owned. -/
theorem play_music_spawned_bound (so io : Nat → Bool) :
    ∀ (fuel k : Nat) (s s' : MusicState) (tr : List AudioEvent),
      play_music so io fuel k s = some (s', tr) →
      countSpawned tr ≤ 1 ∧
        (s.audio_process.isSome = true → countSpawned tr = 0) := by
  intro fuel
  induction fuel with
  | zero =>
    intro k s s' tr h
    rw [play_music_zero] at h
    exact absurd h (by simp)
  | succ fuel ih =>
    intro k s s' tr h
    obtain ⟨mf, ap, ip⟩ := s
    cases mf with
    | none =>
      rw [play_music_nofile] at h
      simp only [Option.some.injEq, Prod.mk.injEq] at h
      obtain ⟨rfl, rfl⟩ := h
      exact ⟨by simp [countSpawned, List.countP_nil], fun _ => by simp [countSpawned, List.countP_nil]⟩
    | some m =>
      cases ap with
      | none =>
        by_cases hso : so k
        · rw [play_music_spawn so io fuel k m ip hso] at h
          simp only [Option.some.injEq, Prod.mk.injEq] at h
          obtain ⟨rfl, rfl⟩ := h
          refine ⟨by simp [countSpawned, List.countP_cons, List.countP_nil], ?_⟩
          intro habs
          exact absurd habs (by simp)
        · by_cases hio : io k
          · rw [play_music_recover so io fuel k m ip (Bool.not_eq_true _ ▸ hso) hio] at h
            cases hrec : play_music so io fuel (k + 1) ⟨some m, none, ip⟩ with
            | none => rw [hrec] at h; exact absurd h (by simp)
            | some r =>
              rw [hrec] at h
              simp only [Option.some.injEq, Prod.mk.injEq] at h
              obtain ⟨rfl, rfl⟩ := h
              have hrc := ih (k + 1) ⟨some m, none, ip⟩ r.1 r.2 (by rw [hrec])
              refine ⟨?_, ?_⟩
              · simpa [countSpawned, List.countP_cons] using hrc.1
              · intro habs
                exact absurd habs (by simp)
          · rw [play_music_giveup so io fuel k m ip (Bool.not_eq_true _ ▸ hso)
              (Bool.not_eq_true _ ▸ hio)] at h
            simp only [Option.some.injEq, Prod.mk.injEq] at h
            obtain ⟨rfl, rfl⟩ := h
            refine ⟨by simp [countSpawned, List.countP_cons, List.countP_nil], ?_⟩
            intro habs
            exact absurd habs (by simp)
      | some hp =>
        cases ip with
        | true =>
          rw [play_music_resume] at h
          simp only [Option.some.injEq, Prod.mk.injEq] at h
          obtain ⟨rfl, rfl⟩ := h
          exact ⟨by simp [countSpawned, List.countP_cons, List.countP_nil], fun _ => by
            simp [countSpawned, List.countP_cons, List.countP_nil]⟩
        | false =>
          rw [play_music_already_playing] at h
          simp only [Option.some.injEq, Prod.mk.injEq] at h
          obtain ⟨rfl, rfl⟩ := h
          exact ⟨by simp [countSpawned, List.countP_nil], fun _ => by simp [countSpawned, List.countP_nil]⟩

theorem pause_music_inv (s : MusicState) (hinv : MusicInv s) :
    MusicInv (pause_music s).1 := by
  obtain ⟨mf, ap, ip⟩ := s
  cases ap with
  | none => exact hinv
  | some hp =>
    cases ip with
    | true => exact hinv
    | false =>
      intro _
      rfl

theorem stop_music_inv (s : MusicState) (hinv : MusicInv s) :
    MusicInv (stop_music s).1 := by
  obtain ⟨mf, ap, ip⟩ := s
  cases ap with
  | none => exact hinv
  | some hp =>
    intro habs
    exact absurd habs (by simp [stop_music])

theorem load_music_inv (exists_fs : String → Bool) (p : String) (s : MusicState)
    (hinv : MusicInv s) : MusicInv (load_music exists_fs p s).1 := by
  unfold load_music
  by_cases hex : exists_fs p
  · rw [if_pos hex]
    exact hinv
  · rw [if_neg hex]
    exact hinv

/-- C5: the handle/pause coherence predicate (`is_paused` implies an
owned process; the handle being present is what Playing/Paused mean)
holds initially and is preserved by `play_music`, `pause_music`,
`stop_music` and `load_music`; moreover at most one audio process is
owned at a time: `play_music` spawns at most once per call and never
when a handle is already owned. -/
theorem music_invariant_preserved :
    MusicInv initMusic ∧
    (∀ (so io : Nat → Bool) (fuel k : Nat) (s s' : MusicState)
        (tr : List AudioEvent),
      MusicInv s → play_music so io fuel k s = some (s', tr) → MusicInv s') ∧
    (∀ s : MusicState, MusicInv s → MusicInv (pause_music s).1) ∧
    (∀ s : MusicState, MusicInv s → MusicInv (stop_music s).1) ∧
    (∀ (exists_fs : String → Bool) (p : String) (s : MusicState),
      MusicInv s → MusicInv (load_music exists_fs p s).1) ∧
    (∀ (so io : Nat → Bool) (fuel k : Nat) (s s' : MusicState)
        (tr : List AudioEvent),
      play_music so io fuel k s = some (s', tr) →
      countSpawned tr ≤ 1 ∧
        (s.audio_process.isSome = true → countSpawned tr = 0)) :=
  ⟨fun h => absurd h (by simp [initMusic]),
    fun so io fuel k s s' tr => play_music_inv so io fuel k s s' tr,
    pause_music_inv, stop_music_inv, load_music_inv,
    fun so io fuel k s s' tr => play_music_spawned_bound so io fuel k s s' tr⟩

/-- Witness for C5: the invariant conjuncts applied at concrete states —
pausing a playing state keeps the invariant, and a resume call on an
owned process spawns nothing. -/
theorem music_invariant_preserved_witness :
    MusicInv (pause_music ⟨some "m.mp3", some 0, false⟩).1 ∧
      countSpawned [AudioEvent.sigcont 0] = 0 :=
  ⟨music_invariant_preserved.2.2.1 ⟨some "m.mp3", some 0, false⟩
      (fun h => absurd h (by simp)),
    (music_invariant_preserved.2.2.2.2.2 (fun _ => true) (fun _ => true) 1 0
        ⟨some "m.mp3", some 0, true⟩ ⟨some "m.mp3", some 0, false⟩
        [AudioEvent.sigcont 0] rfl).2 rfl⟩

/-- A Stopped state with media loaded, as reached by `run`'s startup
`load_music` call. -/
def stoppedLoaded : MusicState := ⟨some "default_music.mp3", none, false⟩

/-- C6 counterexample: with the player binary missing throughout
(`spawnOk` always false) and the first install succeeding, the code does
NOT stop after one recovery and one retry: the failed retry triggers a
second install attempt (two `installTried` events, two `spawnTried`
events) before giving up, contradicting "exactly one recovery attempt".
The state does remain Stopped. -/
theorem play_music_retry_claim_false :
    play_music (fun _ => false) (fun j => j == 0) 3 0 stoppedLoaded =
      some (stoppedLoaded,
        [AudioEvent.spawnTried 0, AudioEvent.installTried 0,
          AudioEvent.spawnTried 1, AudioEvent.installTried 1,
          AudioEvent.installGaveUp]) ∧
      countInstallTried
        [AudioEvent.spawnTried 0, AudioEvent.installTried 0,
          AudioEvent.spawnTried 1, AudioEvent.installTried 1,
          AudioEvent.installGaveUp] = 2 := by
  constructor
  · rfl
  · rfl

/-- C6 amended: on a Stopped state with media loaded, a terminating
`play_music` call retries the spawn once per successful install — the
number of spawn attempts exceeds the number of install attempts by one
exactly when a spawn finally succeeds — and gives up precisely when an
install fails, in which case the state is returned unchanged (still
Stopped, handle null) and the give-up is reported non-fatally. -/
theorem play_music_spawn_recovery (so io : Nat → Bool) :
    ∀ (fuel k : Nat) (s s' : MusicState) (tr : List AudioEvent) (f : String),
      s.music_file = some f → s.audio_process = none →
      play_music so io fuel k s = some (s', tr) →
      ((∃ h, s'.audio_process = some h) →
          countSpawnTried tr = countInstallTried tr + 1 ∧ s'.is_paused = false) ∧
      (s'.audio_process = none →
          s' = s ∧ countSpawnTried tr = countInstallTried tr ∧
            AudioEvent.installGaveUp ∈ tr) := by
  intro fuel
  induction fuel with
  | zero =>
    intro k s s' tr f hmf hap h
    rw [play_music_zero] at h
    exact absurd h (by simp)
  | succ fuel ih =>
    intro k s s' tr f hmf hap h
    obtain ⟨mf, ap, ip⟩ := s
    cases hmf
    cases hap
    by_cases hso : so k
    · rw [play_music_spawn so io fuel k f ip hso] at h
      simp only [Option.some.injEq, Prod.mk.injEq] at h
      obtain ⟨rfl, rfl⟩ := h
      constructor
      · intro _
        exact ⟨by simp [countSpawnTried, countInstallTried, List.countP_cons,
          List.countP_nil], rfl⟩
      · intro habs
        exact absurd habs (by simp)
    · by_cases hio : io k
      · rw [play_music_recover so io fuel k f ip (Bool.not_eq_true _ ▸ hso) hio] at h
        cases hrec : play_music so io fuel (k + 1) ⟨some f, none, ip⟩ with
        | none => rw [hrec] at h; exact absurd h (by simp)
        | some r =>
          rw [hrec] at h
          simp only [Option.some.injEq, Prod.mk.injEq] at h
          obtain ⟨rfl, rfl⟩ := h
          have hrc := ih (k + 1) ⟨some f, none, ip⟩ r.1 r.2 f rfl rfl (by rw [hrec])
          constructor
          · intro hsome
            obtain ⟨hc1, hc2⟩ := hrc.1 hsome
            refine ⟨?_, hc2⟩
            simp only [countSpawnTried, countInstallTried, List.countP_cons] at hc1 ⊢
            simp [hc1]
          · intro hnone
            obtain ⟨hc1, hc2, hc3⟩ := hrc.2 hnone
            refine ⟨hc1, ?_, List.mem_cons_of_mem _ (List.mem_cons_of_mem _ hc3)⟩
            simp only [countSpawnTried, countInstallTried, List.countP_cons] at hc2 ⊢
            simp [hc2]
      · rw [play_music_giveup so io fuel k f ip (Bool.not_eq_true _ ▸ hso)
          (Bool.not_eq_true _ ▸ hio)] at h
        simp only [Option.some.injEq, Prod.mk.injEq] at h
        obtain ⟨rfl, rfl⟩ := h
        constructor
        · rintro ⟨hh, habs⟩
          exact absurd habs (by simp)
        · intro _
          exact ⟨rfl, by simp [countSpawnTried, countInstallTried, List.countP_cons,
            List.countP_nil], by simp⟩

/-- Witness for C6's amended theorem: an immediately successful spawn
from `stoppedLoaded` has one spawn attempt, zero install attempts, and
ends Playing. -/
theorem play_music_spawn_recovery_witness :
    ((∃ h, (⟨some "default_music.mp3", some 0, false⟩ : MusicState).audio_process =
        some h) →
      countSpawnTried [AudioEvent.spawnTried 0, AudioEvent.spawned 0] =
          countInstallTried [AudioEvent.spawnTried 0, AudioEvent.spawned 0] + 1 ∧
        (⟨some "default_music.mp3", some 0, false⟩ : MusicState).is_paused = false) ∧
    ((⟨some "default_music.mp3", some 0, false⟩ : MusicState).audio_process = none →
      (⟨some "default_music.mp3", some 0, false⟩ : MusicState) = stoppedLoaded ∧
        countSpawnTried [AudioEvent.spawnTried 0, AudioEvent.spawned 0] =
          countInstallTried [AudioEvent.spawnTried 0, AudioEvent.spawned 0] ∧
        AudioEvent.installGaveUp ∈ [AudioEvent.spawnTried 0, AudioEvent.spawned 0]) :=
  play_music_spawn_recovery (fun _ => true) (fun _ => true) 1 0 stoppedLoaded
    ⟨some "default_music.mp3", some 0, false⟩
    [AudioEvent.spawnTried 0, AudioEvent.spawned 0] "default_music.mp3" rfl rfl rfl

/-- C7 counterexample: `load_music` has no already-loaded guard — a
second call with an existing path overwrites the previously recorded
path, contradicting "a second call to load never changes the previously
recorded path". -/
theorem load_music_overwrites :
    (load_music (fun _ => true) "b.mp3" ⟨some "a.mp3", none, false⟩).1.music_file =
        some "b.mp3" ∧
      some "b.mp3" ≠ (⟨some "a.mp3", none, false⟩ : MusicState).music_file := by
  constructor
  · rfl
  · intro h
    exact absurd (Option.some.inj h) (by decide)

/-- C7 amended: `load_music` records the path and returns success iff
the path exists, and otherwise leaves the whole state unchanged and
returns failure — with no already-loaded no-op: an existing path is
recorded even over a previously loaded one. -/
theorem load_music_spec (exists_fs : String → Bool) (p : String) (s : MusicState) :
    (exists_fs p = true →
        load_music exists_fs p s = ({ s with music_file := some p }, true)) ∧
    (exists_fs p = false → load_music exists_fs p s = (s, false)) := by
  constructor
  · intro h
    unfold load_music
    rw [if_pos h]
  · intro h
    unfold load_music
    rw [if_neg (by rw [h]; exact Bool.false_ne_true)]

/-- Witness for C7's amended theorem: loading an existing path over an
already loaded state records the new path. -/
theorem load_music_spec_witness :
    load_music (fun _ => true) "b.mp3" ⟨some "a.mp3", none, false⟩ =
      ((⟨some "b.mp3", none, false⟩ : MusicState), true) :=
  (load_music_spec (fun _ => true) "b.mp3" ⟨some "a.mp3", none, false⟩).1 rfl

/-! ## Main loop (`FacePlayTrigger.run`): per-face processing and the
sustained-smile sampler -/

/-- `self.smile_check_interval = 1.5` seconds. -/
def smile_check_interval : ℚ := 3 / 2

/-- One detected face of a frame: the count of eye boxes found inside it
and the boolean outcome `detect_smile_state` would report for its
region. -/
structure Face where
  eyes : Nat
  smile : Bool
deriving DecidableEq

/-- The mutable state touched by the loop body: the sampler clock
`last_smile_check`, the reported sustained state `is_smiling`, and the
whole playback state. -/
structure LoopState where
  last_smile_check : ℚ
  is_smiling : Bool
  music : MusicState
deriving DecidableEq

/-- Observable work done while processing one face.  `eyesDetected` is
the (display-only) eye detection pass; `sampled` marks a sustained-state
sampling instant; `rising`/`falling` are the `is_smiling` edges that
drive `play_music`/`pause_music`. -/
inductive FrameEvent
  | eyesDetected (n : Nat)
  | sampled
  | rising
  | falling
deriving DecidableEq

/-- The body of `run`'s `for (x, y, w, h) in faces` loop for one face,
at frame instant `t`: eye detection (display only), then the
time-gated sustained-smile sample and the resulting play/pause
transition. -/
def processFace (so io : Nat → Bool) (fuel : Nat) (t : ℚ) (f : Face)
    (s : LoopState) : Option (LoopState × List FrameEvent) :=
  if smile_check_interval ≤ t - s.last_smile_check then
    if f.smile = true ∧ s.is_smiling = false then
      (play_music so io fuel 0 s.music).map fun r =>
        (⟨t, true, r.1⟩, [.eyesDetected f.eyes, .sampled, .rising])
    else if f.smile = false ∧ s.is_smiling = true then
      some (⟨t, false, (pause_music s.music).1⟩,
        [.eyesDetected f.eyes, .sampled, .falling])
    else
      some (⟨t, s.is_smiling, s.music⟩, [.eyesDetected f.eyes, .sampled])
  else
    some (s, [.eyesDetected f.eyes])

/-- The whole `for` loop of one frame, over the classifier's face list
in order. -/
def processFaces (so io : Nat → Bool) (fuel : Nat) (t : ℚ) :
    List Face → LoopState → Option (LoopState × List FrameEvent)
  | [], s => some (s, [])
  | f :: fs, s =>
    (processFace so io fuel t f s).bind fun r =>
      (processFaces so io fuel t fs r.1).map fun r2 => (r2.1, r.2 ++ r2.2)

/-- The `while True` loop of `run` over a finite list of frames, each
given as (frame instant, detected faces); events are tagged with their
frame's instant. -/
def runLoop (so io : Nat → Bool) (fuel : Nat) :
    List (ℚ × List Face) → LoopState → Option (LoopState × List (ℚ × FrameEvent))
  | [], s => some (s, [])
  | (t, faces) :: rest, s =>
    (processFaces so io fuel t faces s).bind fun r =>
      (runLoop so io fuel rest r.1).map fun r2 =>
        (r2.1, r.2.map (fun e => (t, e)) ++ r2.2)

/-- Instants at which the sustained-smile state was sampled. -/
def sampleTimes (tr : List (ℚ × FrameEvent)) : List ℚ :=
  tr.filterMap fun p => if p.2 = FrameEvent.sampled then some p.1 else none

/-- The subsequence of rising/falling edges of a tagged trace. -/
def edgesOf (tr : List (ℚ × FrameEvent)) : List FrameEvent :=
  tr.filterMap fun p =>
    match p.2 with
    | FrameEvent.rising => some FrameEvent.rising
    | FrameEvent.falling => some FrameEvent.falling
    | _ => none

/-- The edge sequence alternates, starting against the current reported
level `b`: from not-smiling the next edge can only be rising, and so
on. -/
def okEdges : Bool → List FrameEvent → Prop
  | _, [] => True
  | b, e :: es =>
    e = (if b then FrameEvent.falling else FrameEvent.rising) ∧ okEdges (!b) es

/-- The reported level after a sequence of edges. -/
def afterEdges : Bool → List FrameEvent → Bool
  | b, [] => b
  | b, _ :: es => afterEdges (!b) es

/-- Number of (display-only) eye-detection passes in a frame trace. -/
def countEyesDetected (ev : List FrameEvent) : Nat :=
  ev.countP fun e => match e with | .eyesDetected _ => true | _ => false

theorem processFace_closed (so io : Nat → Bool) (fuel : Nat) (t : ℚ) (f : Face)
    (s : LoopState) (h : t - s.last_smile_check < smile_check_interval) :
    processFace so io fuel t f s = some (s, [.eyesDetected f.eyes]) := by
  unfold processFace
  rw [if_neg (not_le.mpr h)]

theorem processFace_rise (so io : Nat → Bool) (fuel : Nat) (t : ℚ) (f : Face)
    (s : LoopState) (hgate : smile_check_interval ≤ t - s.last_smile_check)
    (hsm : f.smile = true) (hss : s.is_smiling = false) :
    processFace so io fuel t f s =
      (play_music so io fuel 0 s.music).map fun r =>
        (⟨t, true, r.1⟩, [.eyesDetected f.eyes, .sampled, .rising]) := by
  unfold processFace
  rw [if_pos hgate, if_pos ⟨hsm, hss⟩]

theorem processFace_fall (so io : Nat → Bool) (fuel : Nat) (t : ℚ) (f : Face)
    (s : LoopState) (hgate : smile_check_interval ≤ t - s.last_smile_check)
    (hsm : f.smile = false) (hss : s.is_smiling = true) :
    processFace so io fuel t f s =
      some (⟨t, false, (pause_music s.music).1⟩,
        [.eyesDetected f.eyes, .sampled, .falling]) := by
  unfold processFace
  rw [if_pos hgate, if_neg (fun hc => Bool.noConfusion (hss.symm.trans hc.2)),
    if_pos ⟨hsm, hss⟩]

theorem processFace_level (so io : Nat → Bool) (fuel : Nat) (t : ℚ) (f : Face)
    (s : LoopState) (hgate : smile_check_interval ≤ t - s.last_smile_check)
    (hsame : f.smile = s.is_smiling) :
    processFace so io fuel t f s =
      some (⟨t, s.is_smiling, s.music⟩, [.eyesDetected f.eyes, .sampled]) := by
  unfold processFace
  rw [if_pos hgate,
    if_neg (fun hc => Bool.noConfusion ((hc.1.symm.trans hsame).trans hc.2)),
    if_neg (fun hc => Bool.noConfusion ((hc.2.symm.trans hsame.symm).trans hc.1))]

theorem processFace_last (so io : Nat → Bool) (fuel : Nat) (t : ℚ) (f : Face)
    (s s1 : LoopState) (ev : List FrameEvent)
    (h : processFace so io fuel t f s = some (s1, ev)) :
    t - s1.last_smile_check < smile_check_interval := by
  by_cases hgate : smile_check_interval ≤ t - s.last_smile_check
  · have hlast : s1.last_smile_check = t := by
      by_cases h1 : f.smile = true ∧ s.is_smiling = false
      · rw [processFace_rise so io fuel t f s hgate h1.1 h1.2] at h
        cases hrec : play_music so io fuel 0 s.music with
        | none =>
          rw [hrec] at h
          exact absurd h (by simp)
        | some r =>
          rw [hrec, Option.map_some'] at h
          simp only [Option.some.injEq, Prod.mk.injEq] at h
          obtain ⟨rfl, -⟩ := h
          rfl
      · by_cases h2 : f.smile = false ∧ s.is_smiling = true
        · rw [processFace_fall so io fuel t f s hgate h2.1 h2.2] at h
          simp only [Option.some.injEq, Prod.mk.injEq] at h
          obtain ⟨rfl, -⟩ := h
          rfl
        · have hsame : f.smile = s.is_smiling := by
            cases hfs : f.smile <;> cases hss : s.is_smiling <;> simp_all
          rw [processFace_level so io fuel t f s hgate hsame] at h
          simp only [Option.some.injEq, Prod.mk.injEq] at h
          obtain ⟨rfl, -⟩ := h
          rfl
    rw [hlast, sub_self]
    norm_num [smile_check_interval]
  · rw [processFace_closed so io fuel t f s (not_le.mp hgate)] at h
    simp only [Option.some.injEq, Prod.mk.injEq] at h
    obtain ⟨rfl, -⟩ := h
    exact not_le.mp hgate

theorem processFaces_nil (so io : Nat → Bool) (fuel : Nat) (t : ℚ) (s : LoopState) :
    processFaces so io fuel t [] s = some (s, []) := rfl

theorem processFaces_cons_def (so io : Nat → Bool) (fuel : Nat) (t : ℚ)
    (f : Face) (fs : List Face) (s : LoopState) :
    processFaces so io fuel t (f :: fs) s =
      (processFace so io fuel t f s).bind fun r =>
        (processFaces so io fuel t fs r.1).map fun r2 => (r2.1, r.2 ++ r2.2) := rfl

/-- Once the gate is closed relative to the frame instant, the rest of
that frame's faces only run eye detection: state untouched. -/
theorem processFaces_inert (so io : Nat → Bool) (fuel : Nat) (t : ℚ) :
    ∀ (fs : List Face) (s : LoopState),
      t - s.last_smile_check < smile_check_interval →
      processFaces so io fuel t fs s =
        some (s, fs.map fun g => FrameEvent.eyesDetected g.eyes) := by
  intro fs
  induction fs with
  | nil =>
    intro s _
    rfl
  | cons f fs ih =>
    intro s h
    rw [processFaces_cons_def, processFace_closed so io fuel t f s h,
      Option.some_bind, ih s h, Option.map_some']
    rfl

/-- The state after a frame, and its sample/edge events, are those of
its first face alone; faces after the first contribute only their
(display-only) eye detection pass. -/
theorem processFaces_first_face (so io : Nat → Bool) (fuel : Nat) (t : ℚ)
    (f : Face) (fs : List Face) (s : LoopState) :
    processFaces so io fuel t (f :: fs) s =
      (processFace so io fuel t f s).map
        (fun r => (r.1, r.2 ++ fs.map fun g => FrameEvent.eyesDetected g.eyes)) := by
  rw [processFaces_cons_def]
  cases hpf : processFace so io fuel t f s with
  | none => rfl
  | some r =>
    rw [Option.some_bind, Option.map_some',
      processFaces_inert so io fuel t fs r.1
        (processFace_last so io fuel t f s r.1 r.2 (by rw [hpf])),
      Option.map_some']

/-- C9 amended: processing a frame's face list equals processing the
first face alone, with the later faces contributing exactly their
eye-detection passes — so eye detection runs on every face, but faces
after the first never affect the debounce or playback state nor the
sample/edge events. -/
theorem first_face_drives_state (so io : Nat → Bool) (fuel : Nat) (t : ℚ)
    (f : Face) (fs : List Face) (s : LoopState) :
    processFaces so io fuel t (f :: fs) s =
      (processFace so io fuel t f s).map
        (fun r => (r.1, r.2 ++ fs.map fun g => FrameEvent.eyesDetected g.eyes)) :=
  processFaces_first_face so io fuel t f fs s

/-- C9 counterexample: on a two-face frame the eye-detection pass runs
for the second face as well — the trace holds two `eyesDetected`
events — so the detection logic is not applied "only to the first
detected face" (though the state is driven by the first face only). -/
theorem detection_runs_on_second_face :
    processFaces (fun _ => true) (fun _ => true) 1 2
        [⟨2, false⟩, ⟨2, false⟩] ⟨0, false, stoppedLoaded⟩ =
      some (⟨2, false, stoppedLoaded⟩,
        [FrameEvent.eyesDetected 2, FrameEvent.sampled, FrameEvent.eyesDetected 2]) ∧
      countEyesDetected
        [FrameEvent.eyesDetected 2, FrameEvent.sampled, FrameEvent.eyesDetected 2] = 2 := by
  constructor
  · rw [processFaces_first_face,
      processFace_level (fun _ => true) (fun _ => true) 1 2 ⟨2, false⟩
        ⟨0, false, stoppedLoaded⟩ (by norm_num [smile_check_interval]) rfl,
      Option.map_some']
    rfl
  · rfl

/-- C10: a frame in which the classifier finds zero faces leaves the
whole loop state — sampler clock, `is_smiling`, and playback state —
untouched and emits nothing: the loop over that frame list equals the
loop without the empty frame. -/
theorem zero_faces_frame_inert (so io : Nat → Bool) (fuel : Nat) (t : ℚ)
    (rest : List (ℚ × List Face)) (s : LoopState) :
    processFaces so io fuel t [] s = some (s, []) ∧
      runLoop so io fuel ((t, []) :: rest) s = runLoop so io fuel rest s := by
  refine ⟨rfl, ?_⟩
  show (some (s, ([] : List FrameEvent))).bind _ = _
  rw [Option.some_bind]
  cases h : runLoop so io fuel rest s with
  | none => rfl
  | some r2 => rw [Option.map_some']; rfl

/-- Tag a frame's events with the frame instant, as `runLoop` does. -/
def tagged (t : ℚ) (ev : List FrameEvent) : List (ℚ × FrameEvent) :=
  ev.map fun e => (t, e)

theorem eyes_no_sample_edges (t : ℚ) (gs : List Face) :
    sampleTimes (tagged t (gs.map fun g => FrameEvent.eyesDetected g.eyes)) = [] ∧
      edgesOf (tagged t (gs.map fun g => FrameEvent.eyesDetected g.eyes)) = [] := by
  induction gs with
  | nil => exact ⟨rfl, rfl⟩
  | cons g gs ih =>
    refine ⟨?_, ?_⟩
    · simp [tagged, sampleTimes, List.filterMap_cons]
    · simp [tagged, edgesOf, List.filterMap_cons]

theorem sampleTimes_tagged_append (t : ℚ) (a b : List FrameEvent) :
    sampleTimes (tagged t (a ++ b)) =
      sampleTimes (tagged t a) ++ sampleTimes (tagged t b) := by
  simp [tagged, sampleTimes, List.filterMap_append]

theorem edgesOf_tagged_append (t : ℚ) (a b : List FrameEvent) :
    edgesOf (tagged t (a ++ b)) = edgesOf (tagged t a) ++ edgesOf (tagged t b) := by
  simp [tagged, edgesOf, List.filterMap_append]

/-- Everything one frame can do: either the gate was closed (or there
was no face) and the state is untouched with no sample and no edge, or
the gate was open, the clock advanced to the frame instant, exactly one
sample happened there, and the edges are empty, a rising edge, or a
falling edge according to the sampled level versus the reported one. -/
theorem frame_facts (so io : Nat → Bool) (fuel : Nat) (t : ℚ) (faces : List Face)
    (s s1 : LoopState) (ev : List FrameEvent)
    (h : processFaces so io fuel t faces s = some (s1, ev)) :
    (s1 = s ∧ sampleTimes (tagged t ev) = [] ∧ edgesOf (tagged t ev) = []) ∨
    (smile_check_interval ≤ t - s.last_smile_check ∧ s1.last_smile_check = t ∧
      sampleTimes (tagged t ev) = [t] ∧ (t, FrameEvent.sampled) ∈ tagged t ev ∧
      ((edgesOf (tagged t ev) = [] ∧ s1.is_smiling = s.is_smiling) ∨
       (edgesOf (tagged t ev) = [FrameEvent.rising] ∧ s.is_smiling = false ∧
         s1.is_smiling = true) ∨
       (edgesOf (tagged t ev) = [FrameEvent.falling] ∧ s.is_smiling = true ∧
         s1.is_smiling = false))) := by
  cases faces with
  | nil =>
    rw [processFaces_nil] at h
    simp only [Option.some.injEq, Prod.mk.injEq] at h
    obtain ⟨rfl, rfl⟩ := h
    exact Or.inl ⟨rfl, rfl, rfl⟩
  | cons f fs =>
    rw [processFaces_first_face] at h
    cases hpf : processFace so io fuel t f s with
    | none =>
      rw [hpf] at h
      exact absurd h (by simp)
    | some r =>
      rw [hpf, Option.map_some'] at h
      simp only [Option.some.injEq, Prod.mk.injEq] at h
      obtain ⟨rfl, rfl⟩ := h
      by_cases hgate : smile_check_interval ≤ t - s.last_smile_check
      · by_cases h1 : f.smile = true ∧ s.is_smiling = false
        · rw [processFace_rise so io fuel t f s hgate h1.1 h1.2] at hpf
          cases hrec : play_music so io fuel 0 s.music with
          | none =>
            rw [hrec] at hpf
            exact absurd hpf (by simp)
          | some rp =>
            rw [hrec, Option.map_some'] at hpf
            obtain rfl := Option.some.inj hpf
            refine Or.inr ⟨hgate, rfl, ?_, ?_, Or.inr (Or.inl ⟨?_, h1.2, rfl⟩)⟩
            · rw [show ([FrameEvent.eyesDetected f.eyes, FrameEvent.sampled,
                  FrameEvent.rising] : List FrameEvent) ++
                  List.map (fun g => FrameEvent.eyesDetected g.eyes) fs =
                  [FrameEvent.eyesDetected f.eyes, FrameEvent.sampled,
                    FrameEvent.rising] ++
                  List.map (fun g => FrameEvent.eyesDetected g.eyes) fs from rfl,
                sampleTimes_tagged_append, (eyes_no_sample_edges t fs).1]
              simp [tagged, sampleTimes, List.filterMap_cons]
            · simp [tagged]
            · rw [edgesOf_tagged_append, (eyes_no_sample_edges t fs).2]
              simp [tagged, edgesOf, List.filterMap_cons]
        · by_cases h2 : f.smile = false ∧ s.is_smiling = true
          · rw [processFace_fall so io fuel t f s hgate h2.1 h2.2] at hpf
            obtain rfl := Option.some.inj hpf
            refine Or.inr ⟨hgate, rfl, ?_, ?_, Or.inr (Or.inr ⟨?_, h2.2, rfl⟩)⟩
            · rw [sampleTimes_tagged_append, (eyes_no_sample_edges t fs).1]
              simp [tagged, sampleTimes, List.filterMap_cons]
            · simp [tagged]
            · rw [edgesOf_tagged_append, (eyes_no_sample_edges t fs).2]
              simp [tagged, edgesOf, List.filterMap_cons]
          · have hsame : f.smile = s.is_smiling := by
              cases hfs : f.smile <;> cases hss : s.is_smiling <;> simp_all
            rw [processFace_level so io fuel t f s hgate hsame] at hpf
            obtain rfl := Option.some.inj hpf
            refine Or.inr ⟨hgate, rfl, ?_, ?_, Or.inl ⟨?_, rfl⟩⟩
            · rw [sampleTimes_tagged_append, (eyes_no_sample_edges t fs).1]
              simp [tagged, sampleTimes, List.filterMap_cons]
            · simp [tagged]
            · rw [edgesOf_tagged_append, (eyes_no_sample_edges t fs).2]
              simp [tagged, edgesOf, List.filterMap_cons]
      · rw [processFace_closed so io fuel t f s (not_le.mp hgate)] at hpf
        obtain rfl := Option.some.inj hpf
        refine Or.inl ⟨rfl, ?_, ?_⟩
        · exact (eyes_no_sample_edges t (f :: fs)).1
        · exact (eyes_no_sample_edges t (f :: fs)).2

theorem okEdges_append (l1 : List FrameEvent) :
    ∀ (b : Bool) (l2 : List FrameEvent),
      okEdges b l1 → okEdges (afterEdges b l1) l2 → okEdges b (l1 ++ l2) := by
  induction l1 with
  | nil =>
    intro b l2 _ h2
    exact h2
  | cons e es ih =>
    intro b l2 h1 h2
    exact ⟨h1.1, ih (!b) l2 h1.2 h2⟩

theorem afterEdges_append (l1 : List FrameEvent) :
    ∀ (b : Bool) (l2 : List FrameEvent),
      afterEdges b (l1 ++ l2) = afterEdges (afterEdges b l1) l2 := by
  induction l1 with
  | nil => intro b l2; rfl
  | cons e es ih => intro b l2; exact ih (!b) l2

theorem okEdges_chain' : ∀ (l : List FrameEvent) (b : Bool), okEdges b l →
    List.Chain' (fun a c : FrameEvent => a ≠ c) l := by
  intro l
  induction l with
  | nil => intro b _; trivial
  | cons e es ih =>
    intro b h
    cases es with
    | nil => simp
    | cons e2 es2 =>
      refine List.chain'_cons.mpr ⟨?_, ih (!b) h.2⟩
      rw [h.1, h.2.1]
      cases b <;> decide

theorem chain'_of_chain {α : Type} {R : α → α → Prop} {a : α} {l : List α}
    (h : List.Chain R a l) : List.Chain' R l := by
  cases l with
  | nil => trivial
  | cons b l => exact (List.chain_cons.mp h).2

theorem mem_tagged_fst {t : ℚ} {ev : List FrameEvent} {p : ℚ × FrameEvent}
    (hp : p ∈ tagged t ev) : p.1 = t := by
  obtain ⟨e, -, rfl⟩ := List.mem_map.mp hp
  rfl

theorem edge_mem_edgesOf {e : FrameEvent} {p : ℚ × FrameEvent}
    {tr : List (ℚ × FrameEvent)} (hp : p ∈ tr) (hpe : p.2 = e)
    (he : e = FrameEvent.rising ∨ e = FrameEvent.falling) : e ∈ edgesOf tr := by
  apply List.mem_filterMap.mpr
  refine ⟨p, hp, ?_⟩
  rw [hpe]
  cases he with
  | inl h => rw [h]
  | inr h => rw [h]

theorem runLoop_nil (so io : Nat → Bool) (fuel : Nat) (s : LoopState) :
    runLoop so io fuel [] s = some (s, []) := rfl

theorem runLoop_cons (so io : Nat → Bool) (fuel : Nat) (t : ℚ) (faces : List Face)
    (rest : List (ℚ × List Face)) (s : LoopState) :
    runLoop so io fuel ((t, faces) :: rest) s =
      (processFaces so io fuel t faces s).bind fun r =>
        (runLoop so io fuel rest r.1).map fun r2 =>
          (r2.1, tagged t r.2 ++ r2.2) := rfl

/-- Invariant of the whole loop: sample times chain upward from the
incoming sampler clock by at least the check interval, the edge sequence
alternates against the incoming reported level, the final level is the
incoming one toggled once per edge, and every edge lies at a sampled
instant. -/
theorem runLoop_inv (so io : Nat → Bool) (fuel : Nat) :
    ∀ (frames : List (ℚ × List Face)) (s s' : LoopState)
      (tr : List (ℚ × FrameEvent)),
      runLoop so io fuel frames s = some (s', tr) →
      List.Chain (fun a b => a + smile_check_interval ≤ b)
          s.last_smile_check (sampleTimes tr) ∧
        okEdges s.is_smiling (edgesOf tr) ∧
        s'.is_smiling = afterEdges s.is_smiling (edgesOf tr) ∧
        (∀ p ∈ tr, (p.2 = FrameEvent.rising ∨ p.2 = FrameEvent.falling) →
          (p.1, FrameEvent.sampled) ∈ tr) := by
  intro frames
  induction frames with
  | nil =>
    intro s s' tr h
    rw [runLoop_nil] at h
    simp only [Option.some.injEq, Prod.mk.injEq] at h
    obtain ⟨rfl, rfl⟩ := h
    exact ⟨List.Chain.nil, trivial, rfl, by simp⟩
  | cons fr rest ih =>
    obtain ⟨t, faces⟩ := fr
    intro s s' tr h
    rw [runLoop_cons] at h
    cases hpf : processFaces so io fuel t faces s with
    | none =>
      rw [hpf] at h
      exact absurd h (by simp)
    | some r =>
      obtain ⟨s1, ev⟩ := r
      rw [hpf, Option.some_bind] at h
      cases hrl : runLoop so io fuel rest s1 with
      | none =>
        rw [hrl] at h
        exact absurd h (by simp)
      | some r2 =>
        obtain ⟨s2, tr2⟩ := r2
        rw [hrl, Option.map_some'] at h
        simp only [Option.some.injEq, Prod.mk.injEq] at h
        obtain ⟨rfl, rfl⟩ := h
        obtain ⟨hchain2, hok2, hafter2, hmem2⟩ := ih s1 s2 tr2 hrl
        have hsplit := frame_facts so io fuel t faces s s1 ev hpf
        have hsampl : sampleTimes (tagged t ev ++ tr2) =
            sampleTimes (tagged t ev) ++ sampleTimes tr2 := by
          simp [sampleTimes, List.filterMap_append]
        have hedge : edgesOf (tagged t ev ++ tr2) =
            edgesOf (tagged t ev) ++ edgesOf tr2 := by
          simp [edgesOf, List.filterMap_append]
        cases hsplit with
        | inl hcase =>
          obtain ⟨rfl, hs0, he0⟩ := hcase
          refine ⟨?_, ?_, ?_, ?_⟩
          · rw [hsampl, hs0]
            exact hchain2
          · rw [hedge, he0]
            exact hok2
          · rw [hedge, he0]
            exact hafter2
          · intro p hp hpe
            rcases List.mem_append.mp hp with hin | hin
            · exfalso
              have := edge_mem_edgesOf hin (p := p) rfl hpe
              rw [he0] at this
              exact absurd this (by simp)
            · exact List.mem_append_right _ (hmem2 p hin hpe)
        | inr hcase =>
          obtain ⟨hgate, hlast, hsamp1, hsmem, hedges⟩ := hcase
          have hstep : s.last_smile_check + smile_check_interval ≤ t := by
            have := le_sub_iff_add_le.mp hgate
            linarith
          refine ⟨?_, ?_, ?_, ?_⟩
          · rw [hsampl, hsamp1]
            exact List.Chain.cons hstep (by rw [← hlast]; exact hchain2)
          · rw [hedge]
            rcases hedges with ⟨he0, hsm⟩ | ⟨he0, hsmf, hsmt⟩ | ⟨he0, hsmt, hsmf⟩
            · rw [he0]
              rw [hsm] at hok2
              exact hok2
            · rw [he0, hsmf]
              refine okEdges_append _ false _ ⟨by simp, trivial⟩ ?_
              rw [hsmt] at hok2
              exact hok2
            · rw [he0, hsmt]
              refine okEdges_append _ true _ ⟨by simp, trivial⟩ ?_
              rw [hsmf] at hok2
              exact hok2
          · rw [hedge]
            rcases hedges with ⟨he0, hsm⟩ | ⟨he0, hsmf, hsmt⟩ | ⟨he0, hsmt, hsmf⟩
            · rw [he0]
              rw [hsm] at hafter2
              simpa using hafter2
            · rw [he0, hsmf]
              rw [afterEdges_append]
              rw [hsmt] at hafter2
              simpa [afterEdges] using hafter2
            · rw [he0, hsmt]
              rw [afterEdges_append]
              rw [hsmf] at hafter2
              simpa [afterEdges] using hafter2
          · intro p hp hpe
            rcases List.mem_append.mp hp with hin | hin
            · have hpt : p.1 = t := mem_tagged_fst hin
              rw [hpt]
              exact List.mem_append_left _ hsmem
            · exact List.mem_append_right _ (hmem2 p hin hpe)

/-- C8: along any terminating run of the main loop, the sustained-smile
sampling instants are spaced at least `smile_check_interval` apart,
every rising/falling edge happens at a sampled instant, and the edge
sequence strictly alternates — two rising edges never occur without an
intervening falling edge. -/
theorem sustained_edges_disciplined (so io : Nat → Bool) (fuel : Nat)
    (frames : List (ℚ × List Face)) (s s' : LoopState)
    (tr : List (ℚ × FrameEvent))
    (h : runLoop so io fuel frames s = some (s', tr)) :
    List.Chain' (fun a b : ℚ => a + smile_check_interval ≤ b) (sampleTimes tr) ∧
      (∀ p ∈ tr, (p.2 = FrameEvent.rising ∨ p.2 = FrameEvent.falling) →
        (p.1, FrameEvent.sampled) ∈ tr) ∧
      List.Chain' (fun a b : FrameEvent => a ≠ b) (edgesOf tr) := by
  obtain ⟨hchain, hok, -, hmem⟩ := runLoop_inv so io fuel frames s s' tr h
  exact ⟨chain'_of_chain hchain, hmem, okEdges_chain' _ _ hok⟩

/-- Witness for C8: a two-frame run (smile sampled at `t = 2`, no smile
sampled at `t = 4`) producing one rising and one falling edge. -/
theorem sustained_edges_disciplined_witness :
    List.Chain' (fun a b : ℚ => a + smile_check_interval ≤ b)
        (sampleTimes
          [(2, FrameEvent.eyesDetected 2), (2, FrameEvent.sampled),
            (2, FrameEvent.rising), (4, FrameEvent.eyesDetected 2),
            (4, FrameEvent.sampled), (4, FrameEvent.falling)]) ∧
      (∀ p ∈ ([(2, FrameEvent.eyesDetected 2), (2, FrameEvent.sampled),
            (2, FrameEvent.rising), (4, FrameEvent.eyesDetected 2),
            (4, FrameEvent.sampled), (4, FrameEvent.falling)] :
              List (ℚ × FrameEvent)),
        (p.2 = FrameEvent.rising ∨ p.2 = FrameEvent.falling) →
        (p.1, FrameEvent.sampled) ∈
          ([(2, FrameEvent.eyesDetected 2), (2, FrameEvent.sampled),
            (2, FrameEvent.rising), (4, FrameEvent.eyesDetected 2),
            (4, FrameEvent.sampled), (4, FrameEvent.falling)] :
              List (ℚ × FrameEvent))) ∧
      List.Chain' (fun a b : FrameEvent => a ≠ b)
        (edgesOf
          [(2, FrameEvent.eyesDetected 2), (2, FrameEvent.sampled),
            (2, FrameEvent.rising), (4, FrameEvent.eyesDetected 2),
            (4, FrameEvent.sampled), (4, FrameEvent.falling)]) := by
  have h1 : processFaces (fun _ => true) (fun _ => true) 1 2 [⟨2, true⟩]
      ⟨0, false, ⟨some "m.mp3", none, false⟩⟩ =
      some (⟨2, true, ⟨some "m.mp3", some 0, false⟩⟩,
        [FrameEvent.eyesDetected 2, FrameEvent.sampled, FrameEvent.rising]) := by
    have hspawn : play_music (fun _ => true) (fun _ => true) 1 0
        ⟨some "m.mp3", none, false⟩ =
        some (⟨some "m.mp3", some 0, false⟩,
          [AudioEvent.spawnTried 0, AudioEvent.spawned 0]) :=
      play_music_spawn (fun _ => true) (fun _ => true) 0 0 "m.mp3" false rfl
    rw [processFaces_first_face,
      processFace_rise (fun _ => true) (fun _ => true) 1 2 ⟨2, true⟩
        ⟨0, false, ⟨some "m.mp3", none, false⟩⟩
        (by norm_num [smile_check_interval]) rfl rfl,
      hspawn, Option.map_some', Option.map_some']
    rfl
  have h2 : processFaces (fun _ => true) (fun _ => true) 1 4 [⟨2, false⟩]
      ⟨2, true, ⟨some "m.mp3", some 0, false⟩⟩ =
      some (⟨4, false, ⟨some "m.mp3", some 0, true⟩⟩,
        [FrameEvent.eyesDetected 2, FrameEvent.sampled, FrameEvent.falling]) := by
    rw [processFaces_first_face,
      processFace_fall (fun _ => true) (fun _ => true) 1 4 ⟨2, false⟩
        ⟨2, true, ⟨some "m.mp3", some 0, false⟩⟩
        (by norm_num [smile_check_interval]) rfl rfl,
      Option.map_some']
    rfl
  have hrun : runLoop (fun _ => true) (fun _ => true) 1
      [(2, [⟨2, true⟩]), (4, [⟨2, false⟩])]
      ⟨0, false, ⟨some "m.mp3", none, false⟩⟩ =
      some (⟨4, false, ⟨some "m.mp3", some 0, true⟩⟩,
        [(2, FrameEvent.eyesDetected 2), (2, FrameEvent.sampled),
          (2, FrameEvent.rising), (4, FrameEvent.eyesDetected 2),
          (4, FrameEvent.sampled), (4, FrameEvent.falling)]) := by
    rw [runLoop_cons, h1, Option.some_bind, runLoop_cons, h2, Option.some_bind,
      runLoop_nil, Option.map_some', Option.map_some']
    rfl
  exact sustained_edges_disciplined (fun _ => true) (fun _ => true) 1
    [(2, [⟨2, true⟩]), (4, [⟨2, false⟩])]
    ⟨0, false, ⟨some "m.mp3", none, false⟩⟩
    ⟨4, false, ⟨some "m.mp3", some 0, true⟩⟩
    [(2, FrameEvent.eyesDetected 2), (2, FrameEvent.sampled),
      (2, FrameEvent.rising), (4, FrameEvent.eyesDetected 2),
      (4, FrameEvent.sampled), (4, FrameEvent.falling)] hrun
